import Mathlib

set_option maxRecDepth 4000
set_option maxHeartbeats 1000000

/-!
Shallow embedding of the local-backend task scheduler of `gwf`
(`src/gwf/backends/local.py`): the `TaskScheduler` state machine
(`_set_status`, `enqueue_task`, `cancel_task`, `set_status`,
`schedule_once`, `get_status`) and the `LocalBackend.logs` method.

Modelling conventions:
- Python dicts (`OrderedDict` queue, `_status_map`, `_executors`,
  `defaultdict(set)` `_dependents`) are association lists that keep
  insertion order; assignment replaces in place, deletion removes the key.
  The `defaultdict`'s creation of an empty entry on read is not observable
  as a mapping and is modelled as a total lookup with default `[]`.
- Python `set` iteration order is unspecified; `Task.dependencies` and the
  dependent sets are modelled as insertion-ordered duplicate-free lists.
- The recursion of `_set_status` (the dependent-failure propagation and the
  `self._set_status(task_id, FAILED); return` call at submit time) is made
  explicit as a depth-first worklist, with a fuel parameter for structural
  termination; running out of fuel is a distinguished error that no real
  execution hits for sufficiently large fuel.
- Exceptions (`KeyError` on a missing dict key, `BackendError` on an
  unknown dependency) abort the operation but keep all mutations performed
  so far, exactly as in Python where the exception propagates out of the
  `with self._lock` block; results therefore carry the post-error state.
- `Executor` objects only matter to scheduler state through their presence
  in `_executors` and the `Task` passed to `execute`; an entry is
  `none` between construction and `execute` (relevant only on the
  `KeyError` path of the SUBMITTED→RUNNING branch).
-/

namespace GwfLocal

/-- The `LocalStatus` enum of the local backend. -/
inductive LocalStatus where
  | UNKNOWN
  | SUBMITTED
  | RUNNING
  | FAILED
  | COMPLETED
  | CANCELLED
deriving DecidableEq

/-- Membership in `TaskScheduler.FAILED_STATES = (CANCELLED, FAILED)`. -/
def LocalStatus.inFailedStates : LocalStatus → Bool
  | .CANCELLED => true
  | .FAILED => true
  | _ => false

/-- Membership in `TaskScheduler.FINISHED_STATES = (CANCELLED, FAILED, COMPLETED)`. -/
def LocalStatus.inFinishedStates : LocalStatus → Bool
  | .CANCELLED => true
  | .FAILED => true
  | .COMPLETED => true
  | _ => false

/-- The `resources` mapping of a task, restricted to the single key
`"cores"` that the scheduler ever reads (`task.resources["cores"]`). -/
structure Resources where
  cores : Int
deriving DecidableEq

/-- The `Task` record of `local.py`. -/
structure Task where
  id : String
  script : String := ""
  workingDir : String := ""
  env : List (String × String) := []
  resources : Resources := ⟨1⟩
  dependencies : List String := []
deriving DecidableEq

/-- Association-list lookup (Python `d[k]` / `d.get(k)`). -/
def lookupA {α : Type} : List (String × α) → String → Option α
  | [], _ => none
  | p :: ps, k => if p.1 = k then some p.2 else lookupA ps k

/-- Association-list assignment `d[k] = v`: replace in place if the key is
present (keeping its position, as Python dicts do), else append. -/
def updA {α : Type} : List (String × α) → String → α → List (String × α)
  | [], k, v => [(k, v)]
  | p :: ps, k, v => if p.1 = k then (k, v) :: ps else p :: updA ps k v

/-- Association-list deletion `del d[k]`. -/
def delA {α : Type} : List (String × α) → String → List (String × α)
  | [], _ => []
  | p :: ps, k => if p.1 = k then delA ps k else p :: delA ps k

/-- `self._dependents[dep_id].add(task_id)` on the `defaultdict(set)`. -/
def addDependent (m : List (String × List String)) (d t : String) :
    List (String × List String) :=
  match lookupA m d with
  | none => m ++ [(d, [t])]
  | some l => if t ∈ l then m else updA m d (l ++ [t])

/-- The mutable state of one `TaskScheduler`. -/
structure SchedState where
  maxCores : Int
  queue : List (String × Task)
  dependents : List (String × List String)
  statusMap : List (String × LocalStatus)
  executors : List (String × Option Task)
  availableCores : Int
deriving DecidableEq

/-- `TaskScheduler.__init__(max_cores, log_manager)`. -/
def initState (maxCores : Int) : SchedState :=
  { maxCores := maxCores
    queue := []
    dependents := []
    statusMap := []
    executors := []
    availableCores := maxCores }

/-- `self._status_map.get(task_id, LocalStatus.UNKNOWN)`. -/
def statusOf (s : SchedState) (taskId : String) : LocalStatus :=
  (lookupA s.statusMap taskId).getD .UNKNOWN

/-- `self._dependents[task_id]` read as a mapping with default `∅`. -/
def depOf (s : SchedState) (taskId : String) : List String :=
  (lookupA s.dependents taskId).getD []

/-- `TaskScheduler.get_status`. -/
def get_status (s : SchedState) (taskId : String) : LocalStatus :=
  statusOf s taskId

/-- Errors a scheduler operation can raise: Python `KeyError`,
`BackendError`, or exhaustion of the modelling fuel. -/
inductive SErr where
  | fuelExhausted
  | keyError (k : String)
  | backendError (msg : String)
deriving DecidableEq

/-- Result of a scheduler operation; an error keeps the mutations made
before the exception was raised. -/
inductive SResult where
  | ok (s : SchedState)
  | err (e : SErr) (s : SchedState)
deriving DecidableEq

/-- The state carried by a result (post-success or post-error state). -/
def SResult.state : SResult → SchedState
  | .ok s => s
  | .err _ s => s

/-- Whether the operation returned without raising. -/
def SResult.isOk : SResult → Bool
  | .ok _ => true
  | .err _ _ => false

/-- The error carried by a result, if any. -/
def SResult.errOf : SResult → Option SErr
  | .ok _ => none
  | .err e _ => some e

/-- Sequencing of scheduler operations: run the next operation only if the
previous one did not raise. -/
def andThen (r : SResult) (f : SchedState → SResult) : SResult :=
  match r with
  | .ok s => f s
  | e => e

/-- Outcome of the dependency loop in the `UNKNOWN→SUBMITTED` branch of
`_set_status`: run to completion, hit a dependency in `FAILED_STATES`
(Python then calls `_set_status(task_id, FAILED)` and returns), or hit an
unregistered dependency (Python raises `BackendError`). -/
inductive DepScan where
  | proceed (s : SchedState)
  | failNow (s : SchedState)
  | unknownDep (d : String) (s : SchedState)

/-- The state carried by a `DepScan` outcome. -/
def DepScan.state : DepScan → SchedState
  | .proceed s => s
  | .failNow s => s
  | .unknownDep _ s => s

/-- The `for dep_id in task.dependencies` loop of the `UNKNOWN→SUBMITTED`
branch: `if self._status_map.get(dep_id) is None: raise BackendError`;
`if self._status_map[dep_id] in FAILED_STATES: _set_status(id, FAILED); return`;
else `self._dependents[dep_id].add(task.id)`. -/
def scanDeps (taskId : String) : SchedState → List String → DepScan
  | s, [] => .proceed s
  | s, d :: ds =>
    match lookupA s.statusMap d with
    | none => .unknownDep d s
    | some depStatus =>
      if depStatus.inFailedStates then .failNow s
      else scanDeps taskId { s with dependents := addDependent s.dependents d taskId } ds

/-- One step of the `_set_status` state machine, before any recursion:
either an early return (`old_status == status`), an exception, or a new
state together with the worklist of recursive `_set_status` calls the step
triggers (the `(task_id, FAILED)` self-call of the submit branch, or
`(dep_id, FAILED)` for each registered dependent after a transition into
`FAILED_STATES`). -/
inductive StepOut where
  | ret (s : SchedState)
  | halt (e : SErr) (s : SchedState)
  | next (s : SchedState) (work : List (String × LocalStatus))

/-- `self._status_map[task_id] = status`. -/
def setStat (s : SchedState) (taskId : String) (status : LocalStatus) : SchedState :=
  { s with statusMap := updA s.statusMap taskId status }

/-- The recursive calls issued after the status write: one
`_set_status(dep_id, FAILED)` per registered dependent, but only when the
new status is in `FAILED_STATES`. -/
def propWork (s : SchedState) (taskId : String) (status : LocalStatus) :
    List (String × LocalStatus) :=
  if status.inFailedStates then (depOf s taskId).map (fun d => (d, LocalStatus.FAILED))
  else []

/-- The body of `TaskScheduler._set_status` (lines 383–424), minus the
recursion, transcribed branch by branch. -/
def setStatusStep (s : SchedState) (taskId : String) (status : LocalStatus) : StepOut :=
  if statusOf s taskId = status then .ret s
  else
    match status, statusOf s taskId with
    | .SUBMITTED, .UNKNOWN =>
      match lookupA s.queue taskId with
      | none => .halt (.keyError taskId) s
      | some task =>
        match scanDeps taskId s task.dependencies with
        | .unknownDep d s2 =>
          .halt (.backendError ("Unknown dependency " ++ d)) s2
        | .failNow s2 => .next s2 [(taskId, .FAILED)]
        | .proceed s2 =>
          let s3 := setStat s2 taskId status
          .next s3 (propWork s3 taskId status)
    | .RUNNING, .SUBMITTED =>
      let s1 := { s with availableCores := s.availableCores - 1 }
      let s2 := { s1 with executors := updA s.executors taskId none }
      match lookupA s.queue taskId with
      | none => .halt (.keyError taskId) s2
      | some task =>
        let s3 := { s2 with executors := updA s2.executors taskId (some task) }
        let s4 := { s3 with queue := delA s.queue taskId }
        let s5 := setStat s4 taskId status
        .next s5 (propWork s5 taskId status)
    | .CANCELLED, .RUNNING =>
      match lookupA s.executors taskId with
      | none => .halt (.keyError taskId) s
      | some _ =>
        let s1 := { s with executors := delA s.executors taskId }
        let s2 := setStat s1 taskId status
        .next s2 (propWork s2 taskId status)
    | .CANCELLED, .SUBMITTED =>
      match lookupA s.queue taskId with
      | none => .halt (.keyError taskId) s
      | some _ =>
        let s1 := { s with queue := delA s.queue taskId }
        let s2 := setStat s1 taskId status
        .next s2 (propWork s2 taskId status)
    | _, _ =>
      if status.inFinishedStates then
        let s1 := { s with availableCores := s.availableCores + 1 }
        if statusOf s taskId = .RUNNING then
          match lookupA s.executors taskId with
          | none => .halt (.keyError taskId) s1
          | some _ =>
            let s2 := { s1 with executors := delA s.executors taskId }
            let s3 := setStat s2 taskId status
            .next s3 (propWork s3 taskId status)
        else
          let s2 := setStat s1 taskId status
          .next s2 (propWork s2 taskId status)
      else
        let s1 := setStat s taskId status
        .next s1 (propWork s1 taskId status)

/-- The full recursive `_set_status`, as a depth-first worklist: Python's
call `_set_status(id, st)` is `runSet fuel s [(id, st)]`, and the recursive
calls a step triggers are prepended so they run before anything that was
pending, matching Python's call order. -/
def runSet : Nat → SchedState → List (String × LocalStatus) → SResult
  | _, s, [] => .ok s
  | 0, s, _ :: _ => .err .fuelExhausted s
  | Nat.succ n, s, (taskId, status) :: rest =>
    match setStatusStep s taskId status with
    | .ret s1 => runSet n s1 rest
    | .halt e s1 => .err e s1
    | .next s1 work => runSet n s1 (work ++ rest)

/-- `TaskScheduler.set_status` (the public, executor-facing entry). -/
def set_status (fuel : Nat) (s : SchedState) (taskId : String)
    (status : LocalStatus) : SResult :=
  runSet fuel s [(taskId, status)]

/-- `TaskScheduler.enqueue_task`: `self._queue[task.id] = task` followed by
`self._set_status(task.id, LocalStatus.SUBMITTED)`. -/
def enqueue_task (fuel : Nat) (s : SchedState) (task : Task) : SResult :=
  runSet fuel { s with queue := updA s.queue task.id task } [(task.id, .SUBMITTED)]

/-- `TaskScheduler.cancel_task`. -/
def cancel_task (fuel : Nat) (s : SchedState) (taskId : String) : SResult :=
  runSet fuel s [(taskId, .CANCELLED)]

/-- The generator `any(self._status_map[dep_id] in FAILED_STATES for ...)`
of `schedule_once`: left-to-right, short-circuiting on the first failed
dependency, raising `KeyError` on the first unregistered one it reaches. -/
def anyFailedDep (sm : List (String × LocalStatus)) : List String → Except String Bool
  | [] => .ok false
  | d :: ds =>
    match lookupA sm d with
    | none => .error d
    | some v => if v.inFailedStates then .ok true else anyFailedDep sm ds

/-- The generator `all(self._status_map[dep_id] == COMPLETED for ...)` of
`schedule_once`: short-circuits on the first non-`COMPLETED` dependency. -/
def allCompletedDep (sm : List (String × LocalStatus)) : List String → Except String Bool
  | [] => .ok true
  | d :: ds =>
    match lookupA sm d with
    | none => .error d
    | some v => if v = .COMPLETED then allCompletedDep sm ds else .ok false

/-- The scan loop of `schedule_once`: walk the queue in insertion order
with a local `available_cores` counter, stop when it is exactly `0`, skip
tasks with a failed dependency (the collected `failed` list is never used
by the source), and collect every task whose dependencies are all
`COMPLETED`, debiting the local counter by `task.resources["cores"]`. -/
def scanQueue (sm : List (String × LocalStatus)) : Int → List Task → Except String (List Task)
  | _, [] => .ok []
  | avail, t :: ts =>
    if avail = 0 then .ok []
    else
      match anyFailedDep sm t.dependencies with
      | .error d => .error d
      | .ok true => scanQueue sm avail ts
      | .ok false =>
        match allCompletedDep sm t.dependencies with
        | .error d => .error d
        | .ok false => scanQueue sm avail ts
        | .ok true =>
          match scanQueue sm (avail - t.resources.cores) ts with
          | .error d => .error d
          | .ok rest => .ok (t :: rest)

/-- `TaskScheduler.schedule_once`: scan under the lock, then apply
`_set_status(task.id, RUNNING)` to each collected task in order. -/
def schedule_once (fuel : Nat) (s : SchedState) : SResult :=
  match scanQueue s.statusMap s.availableCores (s.queue.map (fun p => p.2)) with
  | .error d => .err (.keyError d) s
  | .ok scheduled => runSet fuel s (scheduled.map (fun t => (t.id, LocalStatus.RUNNING)))

/-- Sum of `resources.cores` over the tasks currently held by executors,
i.e. over the RUNNING tasks. -/
def runningCoresSum (s : SchedState) : Int :=
  (s.executors.map (fun p => match p.2 with
    | some t => t.resources.cores
    | none => 0)).sum

/-- A log handle returned by the `FileLogManager`, tagged by which stream
was opened and for which task id. -/
inductive LogFile where
  | stdoutLog (taskId : String)
  | stderrLog (taskId : String)
deriving DecidableEq

/-- Python runtime errors relevant to `LocalBackend.logs`: reading a local
variable before assignment, and a missing key in `self._tracked`. -/
inductive PyErr where
  | unboundLocal (varName : String)
  | pyKeyError (k : String)
deriving DecidableEq

/-- `LocalBackend.get_task_id`: `self._tracked[target_name]`. -/
def get_task_id (tracked : List (String × String)) (targetName : String) :
    Except PyErr String :=
  match lookupA tracked targetName with
  | none => .error (.pyKeyError targetName)
  | some taskId => .ok taskId

/-- `LocalBackend.logs(target, stderr=False)` (lines 141–163). The local
variable `task_id` is modelled as an `Option`: it starts unbound and is
assigned only inside the `if stderr:` branch; the `return
self.log_manager.open_stdout(task_id)` on the other path reads it while
still unbound. -/
def logs (tracked : List (String × String)) (targetName : String)
    (stderr : Bool) : Except PyErr LogFile :=
  let task_id : Option String := none
  if stderr then
    match get_task_id tracked targetName with
    | .error e => .error e
    | .ok tid =>
      let task_id := some tid
      match task_id with
      | some t => .ok (.stderrLog t)
      | none => .error (.unboundLocal "task_id")
  else
    match task_id with
    | some t => .ok (.stdoutLog t)
    | none => .error (.unboundLocal "task_id")

/-- Reachability through the `dependents` reverse edges: `Reaches dep a b`
holds when there is a non-empty chain `a → … → b` with each step going
from a task to one of its registered dependents. -/
inductive Reaches (dep : String → List String) : String → String → Prop
  | base {a e : String} : e ∈ dep a → Reaches dep a e
  | step {a b e : String} : Reaches dep a b → e ∈ dep b → Reaches dep a e

/-- The failure-closure invariant: every registered dependent of a task
whose status is `FAILED` is itself `FAILED`. This is exactly the state of
affairs after an undisturbed propagation; it is broken when a task is
moved out of `FAILED` again by a later `set_status` call. Quantified over
the entries of `statusMap`, so it is decidable on concrete states. -/
def FCList (s : SchedState) : Prop :=
  ∀ p ∈ s.statusMap, p.2 = LocalStatus.FAILED →
    ∀ e ∈ depOf s p.1, statusOf s e = LocalStatus.FAILED

instance (s : SchedState) : Decidable (FCList s) := by
  unfold FCList
  infer_instance

/-- C1 trace: a 2-core task admitted on a 2-core server. -/
def traceC1one : SResult :=
  andThen (enqueue_task 10 (initState 2) {id := "a", resources := ⟨2⟩})
    (schedule_once 10)

/-- C1 trace: three 4-core tasks admitted on a 2-core server in one cycle. -/
def traceC1neg : SResult :=
  andThen (andThen (andThen (enqueue_task 10 (initState 2) {id := "a", resources := ⟨4⟩})
    (fun s => enqueue_task 10 s {id := "b", resources := ⟨4⟩}))
    (fun s => enqueue_task 10 s {id := "c", resources := ⟨4⟩}))
    (schedule_once 10)

/-- C2 trace: run a task to COMPLETED, then cancel it. -/
def traceC2 : SResult :=
  andThen (andThen (andThen (enqueue_task 10 (initState 1) {id := "a"})
    (schedule_once 10))
    (fun s => set_status 10 s "a" .COMPLETED))
    (fun s => cancel_task 10 s "a")

/-- C3 trace: a dependency-free 4-core task on a `max_cores = 2` server,
after one scheduling cycle. -/
def traceC3 : SResult :=
  andThen (enqueue_task 10 (initState 2) {id := "a", resources := ⟨4⟩})
    (schedule_once 10)

/-- C4 trace: cancelling an id the scheduler has never seen. -/
def traceC4 : SResult := cancel_task 10 (initState 1) "x"

/-- C6 trace: submit `a`, submit `b` depending on `a`, cancel `a`; the
propagation marks `b` FAILED without removing it from the queue. -/
def traceC6 : SResult :=
  andThen (andThen (enqueue_task 10 (initState 2) {id := "a"})
    (fun s => enqueue_task 10 s {id := "b", dependencies := ["a"]}))
    (fun s => cancel_task 10 s "a")

/-- C5 counterexample pre-state: chain `A → d → e` in `dependents`, then
`d` is failed directly (which fails `e` too) and `e` is subsequently
revived to COMPLETED by a `set_status` call. -/
def stateC5pre : SchedState :=
  (andThen (andThen (andThen (andThen (enqueue_task 10 (initState 3) {id := "A"})
    (fun s => enqueue_task 10 s {id := "d", dependencies := ["A"]}))
    (fun s => enqueue_task 10 s {id := "e", dependencies := ["d"]}))
    (fun s => set_status 10 s "d" .FAILED))
    (fun s => set_status 10 s "e" .COMPLETED)).state

/-- C5 counterexample: cancelling `A` on `stateC5pre`. -/
def resC5 : SResult := cancel_task 10 stateC5pre "A"

/-- C5 witness pre-state: the same chain `A → d → e`, undisturbed. -/
def stateC5w : SchedState :=
  (andThen (andThen (enqueue_task 10 (initState 3) {id := "A"})
    (fun s => enqueue_task 10 s {id := "d", dependencies := ["A"]}))
    (fun s => enqueue_task 10 s {id := "e", dependencies := ["d"]})).state

/-- C5 witness post-state: `A` cancelled on the undisturbed chain. -/
def stateC5wPost : SchedState := (cancel_task 10 stateC5w "A").state

/-- C7 pre-state: task `a` submitted and then cancelled, so `a` is in
`FAILED_STATES` while `x` has never been seen. -/
def stateC7pre : SchedState :=
  (andThen (enqueue_task 10 (initState 2) {id := "a"})
    (fun s => cancel_task 10 s "a")).state

/-- C7 counterexample submission: dependencies `["a", "x"]` where the
failed `a` is scanned before the unknown `x`. -/
def resC7bad : SResult :=
  enqueue_task 10 stateC7pre {id := "t", dependencies := ["a", "x"]}

/-- C8 counterexample pre-state: a self-loop `t ∈ dependents[t]`, forged
through the public API by parking an explicit `UNKNOWN` entry for `t` and
then submitting `t` with itself as dependency. -/
def stateC8cyc : SchedState :=
  (andThen (andThen (set_status 10 (initState 1) "t" .COMPLETED)
    (fun s => set_status 10 s "t" .UNKNOWN))
    (fun s => enqueue_task 10 s {id := "t", dependencies := ["t"]})).state

/-- C8 counterexample: state after the first `cancel_task("t")`. -/
def stateC8c1 : SchedState := (cancel_task 10 stateC8cyc "t").state

/-- C8 witness pre-state: `a` with one dependent `b`. -/
def stateC8w : SchedState :=
  (andThen (enqueue_task 10 (initState 2) {id := "a"})
    (fun s => enqueue_task 10 s {id := "b", dependencies := ["a"]})).state

/-- C8 witness: state after the first `cancel_task("a")`. -/
def stateC8w1 : SchedState := (cancel_task 10 stateC8w "a").state

/-- C10 witness: submitting a fresh task with a never-seen dependency. -/
def resC10w : SResult :=
  enqueue_task 10 (initState 1) {id := "z", dependencies := ["nope"]}

/-- Looking up the key just assigned yields the assigned value. -/
theorem lookupA_updA_self {α : Type} (m : List (String × α)) (k : String) (v : α) :
    lookupA (updA m k v) k = some v := by
  induction m with
  | nil => simp [updA, lookupA]
  | cons p ps ih =>
    by_cases h : p.1 = k
    · simp [updA, h, lookupA]
    · simp [updA, h, lookupA, ih]

/-- Assignment does not disturb other keys. -/
theorem lookupA_updA_ne {α : Type} (m : List (String × α)) (k x : String) (v : α)
    (h : x ≠ k) : lookupA (updA m k v) x = lookupA m x := by
  have hk : ¬ (k = x) := fun hk => h hk.symm
  induction m with
  | nil => simp [updA, lookupA, hk]
  | cons p ps ih =>
    by_cases hp : p.1 = k
    · have hpx : ¬ (p.1 = x) := by rw [hp]; exact hk
      simp [updA, hp, lookupA, hk, hpx]
    · by_cases hx : p.1 = x
      · simp [updA, hp, lookupA, hx, h]
      · simp [updA, hp, lookupA, hx, h, ih]

/-- A successful lookup points at an entry of the list. -/
theorem lookupA_mem {α : Type} (m : List (String × α)) (k : String) (v : α)
    (h : lookupA m k = some v) : (k, v) ∈ m := by
  induction m with
  | nil => simp [lookupA] at h
  | cons p ps ih =>
    by_cases hp : p.1 = k
    · simp [lookupA, hp] at h
      exact List.mem_cons.mpr (Or.inl (by rw [← hp, ← h]))
    · simp [lookupA, hp] at h
      exact List.mem_cons.mpr (Or.inr (ih h))

/-- The status just written by `setStat`. -/
theorem statusOf_setStat_self (s : SchedState) (taskId : String) (st : LocalStatus) :
    statusOf (setStat s taskId st) taskId = st := by
  simp [statusOf, setStat, lookupA_updA_self]

/-- `setStat` does not disturb the status of other tasks. -/
theorem statusOf_setStat_ne (s : SchedState) (taskId x : String) (st : LocalStatus)
    (h : x ≠ taskId) : statusOf (setStat s taskId st) x = statusOf s x := by
  simp [statusOf, setStat, lookupA_updA_ne _ _ _ _ h]

/-- `FCList` gives the unrestricted closure property: any task whose
status reads `FAILED` has only `FAILED` dependents. -/
theorem FCList_spec {s : SchedState} (h : FCList s) :
    ∀ d, statusOf s d = .FAILED → ∀ e ∈ depOf s d, statusOf s e = .FAILED := by
  intro d hd e he
  have hlk : lookupA s.statusMap d = some .FAILED := by
    unfold statusOf at hd
    cases hc : lookupA s.statusMap d with
    | none => rw [hc] at hd; simp at hd
    | some v => rw [hc] at hd; simp at hd; rw [hd]
  exact h (d, .FAILED) (lookupA_mem _ _ _ hlk) rfl e he

/-- When the requested status equals the current one, `_set_status`
returns immediately without touching anything. -/
theorem setStatusStep_ret (s : SchedState) (taskId : String) (st : LocalStatus)
    (h : statusOf s taskId = st) : setStatusStep s taskId st = .ret s := by
  unfold setStatusStep
  rw [if_pos h]

/-- Prepending a chain step to dependent reachability. -/
theorem Reaches.head {dep : String → List String} {a e x : String}
    (h1 : e ∈ dep a) (h2 : Reaches dep e x) : Reaches dep a x := by
  induction h2 with
  | base hb => exact Reaches.step (Reaches.base h1) hb
  | step _ hb ihb => exact Reaches.step ihb hb

/-- Characterisation of one `_set_status` step towards a status in
`FAILED_STATES` when it is not an early return: either a `KeyError`, or a
new state `t` that differs from `s` only in the written status (plus
cores/queue/executors bookkeeping), together with the propagation worklist
over the dependents of the task — the `dependents` map itself is never
modified on these paths. -/
theorem setStatusStep_failChar (s : SchedState) (taskId : String) (f : LocalStatus)
    (hf : f.inFailedStates = true) (hold : statusOf s taskId ≠ f) :
    (∃ k s0, setStatusStep s taskId f = .halt (.keyError k) s0) ∨
    (∃ t, setStatusStep s taskId f =
        .next t ((depOf s taskId).map (fun d => (d, LocalStatus.FAILED))) ∧
      statusOf t taskId = f ∧
      (∀ x, x ≠ taskId → statusOf t x = statusOf s x) ∧
      t.dependents = s.dependents) := by
  cases f with
  | UNKNOWN => simp [LocalStatus.inFailedStates] at hf
  | SUBMITTED => simp [LocalStatus.inFailedStates] at hf
  | RUNNING => simp [LocalStatus.inFailedStates] at hf
  | COMPLETED => simp [LocalStatus.inFailedStates] at hf
  | FAILED =>
    unfold setStatusStep
    rw [if_neg hold]
    cases hos : statusOf s taskId with
    | FAILED => exact absurd hos hold
    | RUNNING =>
      cases hq : lookupA s.executors taskId with
      | none => exact Or.inl ⟨taskId, _, rfl⟩
      | some ex =>
        exact Or.inr ⟨_, rfl, statusOf_setStat_self _ _ _,
          fun x hx => statusOf_setStat_ne _ _ _ _ hx, rfl⟩
    | UNKNOWN =>
      exact Or.inr ⟨_, rfl, statusOf_setStat_self _ _ _,
        fun x hx => statusOf_setStat_ne _ _ _ _ hx, rfl⟩
    | SUBMITTED =>
      exact Or.inr ⟨_, rfl, statusOf_setStat_self _ _ _,
        fun x hx => statusOf_setStat_ne _ _ _ _ hx, rfl⟩
    | COMPLETED =>
      exact Or.inr ⟨_, rfl, statusOf_setStat_self _ _ _,
        fun x hx => statusOf_setStat_ne _ _ _ _ hx, rfl⟩
    | CANCELLED =>
      exact Or.inr ⟨_, rfl, statusOf_setStat_self _ _ _,
        fun x hx => statusOf_setStat_ne _ _ _ _ hx, rfl⟩
  | CANCELLED =>
    unfold setStatusStep
    rw [if_neg hold]
    cases hos : statusOf s taskId with
    | CANCELLED => exact absurd hos hold
    | RUNNING =>
      cases hq : lookupA s.executors taskId with
      | none => exact Or.inl ⟨taskId, _, rfl⟩
      | some ex =>
        exact Or.inr ⟨_, rfl, statusOf_setStat_self _ _ _,
          fun x hx => statusOf_setStat_ne _ _ _ _ hx, rfl⟩
    | SUBMITTED =>
      cases hq : lookupA s.queue taskId with
      | none => exact Or.inl ⟨taskId, _, rfl⟩
      | some tk =>
        exact Or.inr ⟨_, rfl, statusOf_setStat_self _ _ _,
          fun x hx => statusOf_setStat_ne _ _ _ _ hx, rfl⟩
    | UNKNOWN =>
      exact Or.inr ⟨_, rfl, statusOf_setStat_self _ _ _,
        fun x hx => statusOf_setStat_ne _ _ _ _ hx, rfl⟩
    | FAILED =>
      exact Or.inr ⟨_, rfl, statusOf_setStat_self _ _ _,
        fun x hx => statusOf_setStat_ne _ _ _ _ hx, rfl⟩
    | COMPLETED =>
      exact Or.inr ⟨_, rfl, statusOf_setStat_self _ _ _,
        fun x hx => statusOf_setStat_ne _ _ _ _ hx, rfl⟩

/-- Running a worklist of `FAILED` transitions from a state whose
already-FAILED tasks have their dependents either FAILED or pending on
the worklist: statuses only ever change to `FAILED`, the `dependents`
map is untouched, every worklist entry ends up `FAILED`, and the final
state is failure-closed. -/
theorem runSet_failed_props :
    ∀ (fuel : Nat) (s : SchedState) (work : List (String × LocalStatus)) (s' : SchedState),
      (∀ p ∈ work, p.2 = LocalStatus.FAILED) →
      (∀ d, statusOf s d = LocalStatus.FAILED → ∀ e ∈ depOf s d,
        statusOf s e = LocalStatus.FAILED ∨ (e, LocalStatus.FAILED) ∈ work) →
      runSet fuel s work = .ok s' →
      ((∀ x, statusOf s x = LocalStatus.FAILED → statusOf s' x = LocalStatus.FAILED) ∧
       (∀ x, depOf s' x = depOf s x) ∧
       (∀ p ∈ work, statusOf s' p.1 = LocalStatus.FAILED) ∧
       (∀ d, statusOf s' d = LocalStatus.FAILED → ∀ e ∈ depOf s' d,
         statusOf s' e = LocalStatus.FAILED)) := by
  intro fuel
  induction fuel with
  | zero =>
    intro s work s' hw hinv hrun
    cases work with
    | nil =>
      simp only [runSet, SResult.ok.injEq] at hrun
      subst hrun
      refine ⟨fun x h => h, fun x => rfl, by simp, ?_⟩
      intro d hd e he
      exact (hinv d hd e he).resolve_right (by simp)
    | cons p rest => simp [runSet] at hrun
  | succ n ih =>
    intro s work s' hw hinv hrun
    cases work with
    | nil =>
      simp only [runSet, SResult.ok.injEq] at hrun
      subst hrun
      refine ⟨fun x h => h, fun x => rfl, by simp, ?_⟩
      intro d hd e he
      exact (hinv d hd e he).resolve_right (by simp)
    | cons hd0 rest =>
      obtain ⟨taskId, st⟩ := hd0
      have hst : st = LocalStatus.FAILED := hw (taskId, st) (List.mem_cons_self _ _)
      subst hst
      by_cases hos : statusOf s taskId = LocalStatus.FAILED
      · have hstep := setStatusStep_ret s taskId _ hos
        simp only [runSet, hstep] at hrun
        have hw' : ∀ p ∈ rest, p.2 = LocalStatus.FAILED :=
          fun p hp => hw p (List.mem_cons_of_mem _ hp)
        have hinv' : ∀ d, statusOf s d = LocalStatus.FAILED → ∀ e ∈ depOf s d,
            statusOf s e = LocalStatus.FAILED ∨ (e, LocalStatus.FAILED) ∈ rest := by
          intro d hdf e he
          rcases hinv d hdf e he with h | h
          · exact Or.inl h
          · rcases List.mem_cons.mp h with h | h
            · have he2 : e = taskId := by
                have := congrArg Prod.fst h
                simpa using this
              exact Or.inl (he2 ▸ hos)
            · exact Or.inr h
        obtain ⟨mono, deps, wall, fc⟩ := ih s rest s' hw' hinv' hrun
        refine ⟨mono, deps, ?_, fc⟩
        intro p hp
        rcases List.mem_cons.mp hp with h | h
        · rw [h]; exact mono taskId hos
        · exact wall p h
      · rcases setStatusStep_failChar s taskId .FAILED rfl hos with
          ⟨k, s0, hstep⟩ | ⟨t, hstep, ht1, ht2, ht3⟩
        · simp [runSet, hstep] at hrun
        · simp only [runSet, hstep] at hrun
          have hdept : ∀ x, depOf t x = depOf s x := by
            intro x; unfold depOf; rw [ht3]
          have hw' : ∀ p ∈ (depOf s taskId).map (fun d => (d, LocalStatus.FAILED)) ++ rest,
              p.2 = LocalStatus.FAILED := by
            intro p hp
            rcases List.mem_append.mp hp with h | h
            · obtain ⟨d, _, hd⟩ := List.mem_map.mp h
              rw [← hd]
            · exact hw p (List.mem_cons_of_mem _ h)
          have hinv' : ∀ d, statusOf t d = LocalStatus.FAILED → ∀ e ∈ depOf t d,
              statusOf t e = LocalStatus.FAILED ∨
                (e, LocalStatus.FAILED) ∈
                  (depOf s taskId).map (fun d => (d, LocalStatus.FAILED)) ++ rest := by
            intro d hdf e he
            rw [hdept d] at he
            by_cases hdA : d = taskId
            · subst hdA
              exact Or.inr (List.mem_append_left _ (List.mem_map_of_mem _ he))
            · have hds : statusOf s d = LocalStatus.FAILED := by
                rw [ht2 d hdA] at hdf; exact hdf
              rcases hinv d hds e he with h | h
              · by_cases heA : e = taskId
                · exact Or.inl (heA ▸ ht1)
                · exact Or.inl (by rw [ht2 e heA]; exact h)
              · rcases List.mem_cons.mp h with h | h
                · have he2 : e = taskId := by
                    have := congrArg Prod.fst h
                    simpa using this
                  exact Or.inl (he2 ▸ ht1)
                · exact Or.inr (List.mem_append_right _ h)
          obtain ⟨mono, deps, wall, fc⟩ := ih t _ s' hw' hinv' hrun
          refine ⟨?_, ?_, ?_, fc⟩
          · intro x hx
            by_cases hxA : x = taskId
            · exact mono x (hxA ▸ ht1)
            · exact mono x (by rw [ht2 x hxA]; exact hx)
          · intro x; rw [deps x, hdept x]
          · intro p hp
            rcases List.mem_cons.mp hp with h | h
            · rw [h]; exact mono taskId ht1
            · exact wall p (List.mem_append_right _ h)

/-- Running a worklist of `FAILED` transitions whose ids all lie in a
dependents-closed set `L` never touches the status of a task outside
`L`. -/
theorem runSet_failed_untouched (L : List String) (x : String) :
    ∀ (fuel : Nat) (s : SchedState) (work : List (String × LocalStatus)) (s' : SchedState),
      (∀ p ∈ work, p.2 = LocalStatus.FAILED) →
      (∀ a ∈ L, ∀ e ∈ depOf s a, e ∈ L) →
      (∀ p ∈ work, p.1 ∈ L) →
      x ∉ L →
      runSet fuel s work = .ok s' →
      statusOf s' x = statusOf s x := by
  intro fuel
  induction fuel with
  | zero =>
    intro s work s' hw hcl hkeys hx hrun
    cases work with
    | nil =>
      simp only [runSet, SResult.ok.injEq] at hrun
      rw [← hrun]
    | cons p rest => simp [runSet] at hrun
  | succ n ih =>
    intro s work s' hw hcl hkeys hx hrun
    cases work with
    | nil =>
      simp only [runSet, SResult.ok.injEq] at hrun
      rw [← hrun]
    | cons hd0 rest =>
      obtain ⟨taskId, st⟩ := hd0
      have hst : st = LocalStatus.FAILED := hw (taskId, st) (List.mem_cons_self _ _)
      subst hst
      have htL : taskId ∈ L := hkeys (taskId, .FAILED) (List.mem_cons_self _ _)
      have hxid : x ≠ taskId := fun h => hx (h ▸ htL)
      by_cases hos : statusOf s taskId = LocalStatus.FAILED
      · have hstep := setStatusStep_ret s taskId _ hos
        simp only [runSet, hstep] at hrun
        exact ih s rest s' (fun p hp => hw p (List.mem_cons_of_mem _ hp)) hcl
          (fun p hp => hkeys p (List.mem_cons_of_mem _ hp)) hx hrun
      · rcases setStatusStep_failChar s taskId .FAILED rfl hos with
          ⟨k, s0, hstep⟩ | ⟨t, hstep, ht1, ht2, ht3⟩
        · simp [runSet, hstep] at hrun
        · simp only [runSet, hstep] at hrun
          have hdept : ∀ y, depOf t y = depOf s y := by
            intro y; unfold depOf; rw [ht3]
          have hres := ih t _ s'
            (by
              intro p hp
              rcases List.mem_append.mp hp with h | h
              · obtain ⟨d, _, hd⟩ := List.mem_map.mp h
                rw [← hd]
              · exact hw p (List.mem_cons_of_mem _ h))
            (by
              intro a ha e he
              rw [hdept a] at he
              exact hcl a ha e he)
            (by
              intro p hp
              rcases List.mem_append.mp hp with h | h
              · obtain ⟨d, hd1, hd2⟩ := List.mem_map.mp h
                have : p.1 = d := by rw [← hd2]
                rw [this]
                exact hcl taskId htL d hd1
              · exact hkeys p (List.mem_cons_of_mem _ h))
            hx hrun
          rw [hres, ht2 x hxid]

/-- Running a worklist of `FAILED` transitions can never raise
`BackendError`: the only raising site of `_set_status` is the dependency
check of the `UNKNOWN→SUBMITTED` branch, which `FAILED` never enters. -/
theorem runSet_failed_no_backend :
    ∀ (fuel : Nat) (s : SchedState) (work : List (String × LocalStatus))
      (m : String) (s' : SchedState),
      (∀ p ∈ work, p.2 = LocalStatus.FAILED) →
      runSet fuel s work ≠ .err (.backendError m) s' := by
  intro fuel
  induction fuel with
  | zero =>
    intro s work m s' hw hrun
    cases work with
    | nil => simp [runSet] at hrun
    | cons p rest => simp [runSet] at hrun
  | succ n ih =>
    intro s work m s' hw hrun
    cases work with
    | nil => simp [runSet] at hrun
    | cons hd0 rest =>
      obtain ⟨taskId, st⟩ := hd0
      have hst : st = LocalStatus.FAILED := hw (taskId, st) (List.mem_cons_self _ _)
      subst hst
      by_cases hos : statusOf s taskId = LocalStatus.FAILED
      · have hstep := setStatusStep_ret s taskId _ hos
        simp only [runSet, hstep] at hrun
        exact ih s rest m s' (fun p hp => hw p (List.mem_cons_of_mem _ hp)) hrun
      · rcases setStatusStep_failChar s taskId .FAILED rfl hos with
          ⟨k, s0, hstep⟩ | ⟨t, hstep, ht1, ht2, ht3⟩
        · simp only [runSet, hstep] at hrun
          simp at hrun
        · simp only [runSet, hstep] at hrun
          refine ih t _ m s' ?_ hrun
          intro p hp
          rcases List.mem_append.mp hp with h | h
          · obtain ⟨d, _, hd⟩ := List.mem_map.mp h
            rw [← hd]
          · exact hw p (List.mem_cons_of_mem _ h)

/-- The dependency scan only mutates `dependents`: `statusMap` and
`queue` of its outcome state agree with the input state. -/
theorem scanDeps_preserves (taskId : String) :
    ∀ (ds : List String) (s : SchedState),
      (scanDeps taskId s ds).state.statusMap = s.statusMap ∧
      (scanDeps taskId s ds).state.queue = s.queue := by
  intro ds
  induction ds with
  | nil => intro s; exact ⟨rfl, rfl⟩
  | cons d ds ih =>
    intro s
    unfold scanDeps
    cases hlk : lookupA s.statusMap d with
    | none => exact ⟨rfl, rfl⟩
    | some v =>
      cases hv : v.inFailedStates with
      | true => simp [hv, DepScan.state]
      | false =>
        simp only [hv, Bool.false_eq_true, if_false]
        exact ih { s with dependents := addDependent s.dependents d taskId }

/-- If every dependency before `d` is registered and not failed, and `d`
is unregistered, the dependency scan stops at `d` with the
unknown-dependency outcome. -/
theorem scanDeps_unknown_of (taskId d : String) (post : List String) :
    ∀ (pre : List String) (s : SchedState),
      (∀ y ∈ pre, ∃ v, lookupA s.statusMap y = some v ∧ v.inFailedStates = false) →
      lookupA s.statusMap d = none →
      ∃ s2, scanDeps taskId s (pre ++ d :: post) = .unknownDep d s2 := by
  intro pre
  induction pre with
  | nil =>
    intro s _ hd
    exact ⟨s, by simp [scanDeps, hd]⟩
  | cons y ys ih =>
    intro s hpre hd
    obtain ⟨v, hv, hvf⟩ := hpre y (List.mem_cons_self _ _)
    obtain ⟨s2, h2⟩ := ih { s with dependents := addDependent s.dependents y taskId }
      (fun z hz => hpre z (List.mem_cons_of_mem _ hz)) hd
    refine ⟨s2, ?_⟩
    rw [List.cons_append]
    unfold scanDeps
    rw [hv]
    simp only [hvf, Bool.false_eq_true, if_false]
    exact h2

/-- C1: the claimed invariant `available_cores = max_cores − Σ cores of
RUNNING tasks` fails on the code: `_set_status` decrements
`available_cores` by `1` per started task instead of by
`resources["cores"]`. With `max_cores = 2` and one RUNNING task of
`cores = 2` the code leaves `available_cores = 1` where the claim requires
`0`; moreover three 4-core tasks are all admitted in one cycle and drive
`available_cores` to `-1`, refuting non-negativity as well. -/
theorem C1_core_accounting_eval :
    traceC1one.isOk = true ∧
    traceC1one.state.availableCores = 1 ∧
    traceC1one.state.maxCores - runningCoresSum traceC1one.state = 0 ∧
    traceC1neg.isOk = true ∧
    traceC1neg.state.availableCores = -1 := by decide

/-- C2: terminal states are not absorbing in the code. After a task
reaches COMPLETED, `cancel_task` still rewrites its status to CANCELLED
(the final `elif status in FINISHED_STATES` branch of `_set_status`
accepts the transition and increments `available_cores` past
`max_cores`). -/
theorem C2_terminal_escape_eval :
    traceC2.isOk = true ∧
    get_status traceC2.state "a" = .CANCELLED ∧
    traceC2.state.availableCores = traceC2.state.maxCores + 1 := by decide

/-- C3 counterexample: on a `max_cores = 2` server, the dependency-free
task `a` with `resources.cores = 4` is transitioned to RUNNING by the very
first `schedule_once`, refuting the claim that it remains SUBMITTED
forever: `schedule_once` only stops scanning when its local counter is
exactly `0` and never compares a task's core demand to availability. -/
theorem C3_oversize_task_runs :
    traceC3.isOk = true ∧ get_status traceC3.state "a" = .RUNNING := by decide

/-- C3 amended: a queued task whose dependencies are all satisfied is
admitted regardless of its core demand — for every demand `c`, the task
runs after one cycle on a `max_cores = 2` server and the real counter
drops by exactly `1`. -/
theorem C3_admission_amended (c : Int) :
    ∃ s', andThen (enqueue_task 10 (initState 2) {id := "a", resources := ⟨c⟩})
        (schedule_once 10) = .ok s' ∧
      get_status s' "a" = .RUNNING ∧ s'.availableCores = 1 :=
  ⟨{ maxCores := 2
     queue := []
     dependents := []
     statusMap := [("a", .RUNNING)]
     executors := [("a", some {id := "a", resources := ⟨c⟩})]
     availableCores := 1 }, rfl, rfl, rfl⟩

/-- C4: cancelling a never-seen id is not a no-op. The code reads the
default UNKNOWN, falls into the `status in FINISHED_STATES` branch,
increments `available_cores` beyond `max_cores` and records status
CANCELLED for the unknown id. -/
theorem C4_cancel_unknown_eval :
    traceC4.isOk = true ∧
    get_status traceC4.state "x" = .CANCELLED ∧
    traceC4.state.availableCores = 2 ∧
    traceC4.state.maxCores = 1 ∧
    traceC4.state.queue = [] ∧
    traceC4.state.executors = [] := by decide

/-- C5 counterexample: `e` is reachable from `A` through `dependents`
(`A → d → e`) and the cancel call really transitions `A` from SUBMITTED
into the FAILED_STATE CANCELLED, yet afterwards `e` is still COMPLETED:
propagation early-returns at the already-FAILED `d` and never revisits the
revived `e`. -/
theorem C5_revived_dependent_not_failed :
    statusOf stateC5pre "A" = .SUBMITTED ∧
    ("d" ∈ depOf stateC5pre "A" ∧ "e" ∈ depOf stateC5pre "d") ∧
    resC5.isOk = true ∧
    get_status resC5.state "A" = .CANCELLED ∧
    LocalStatus.CANCELLED.inFailedStates = true ∧
    get_status resC5.state "e" = .COMPLETED := by decide

/-- C6: the queue⇔SUBMITTED half of the claimed invariant fails: after
submitting `a`, submitting `b` depending on `a`, and cancelling `a`,
failure propagation rewrites `b` to FAILED but leaves it in the queue
(no branch of `_set_status` dequeues on SUBMITTED→FAILED, and the `failed`
list collected by `schedule_once` is dead code). -/
theorem C6_failed_task_stays_in_queue :
    traceC6.isOk = true ∧
    (lookupA traceC6.state.queue "b").isSome = true ∧
    get_status traceC6.state "b" = .FAILED := by decide

/-- C7 counterexample: submitting `t` with dependencies `["a", "x"]`
where `a` is CANCELLED and `x` has never been seen does not raise
`BackendError` — the dependency loop reaches the failed `a` first, marks
`t` FAILED and returns before the unknown-dependency check ever runs on
`x`. -/
theorem C7_failed_dep_shadows_unknown :
    lookupA stateC7pre.statusMap "x" = none ∧
    (statusOf stateC7pre "a").inFailedStates = true ∧
    resC7bad.isOk = true ∧
    get_status resC7bad.state "t" = .FAILED := by decide

/-- C8 counterexample: on a state with the reachable self-loop
`t ∈ dependents[t]` (forged through `set_status(t, UNKNOWN)` followed by a
self-dependent submission), cancelling `t` twice is not the same as
cancelling it once — each cancel re-enters the FINISHED branch through the
propagation loop and increments `available_cores` again. -/
theorem C8_cancel_not_idempotent_on_cycle :
    cancel_task 10 stateC8cyc "t" = .ok stateC8c1 ∧
    (cancel_task 10 stateC8c1 "t").isOk = true ∧
    cancel_task 10 stateC8c1 "t" ≠ .ok stateC8c1 := by decide

/-- C9: with `stderr = False` (the default), `LocalBackend.logs` always
raises the unbound-local error on `task_id` instead of returning a stdout
log handle, because `task_id` is assigned only in the `stderr` branch. -/
theorem C9_logs_stdout_unbound_local (tracked : List (String × String))
    (targetName : String) :
    logs tracked targetName false = .error (.unboundLocal "task_id") := rfl

/-- C5 amended: failure propagation is transitive and synchronous
provided no task has been revived out of `FAILED` beforehand. If the
pre-state is failure-closed (`FCList`), the task `A` is neither already in
the requested failed status nor parked at `FAILED`, and the `_set_status`
call moving `A` into a `FAILED_STATE` returns without raising, then every
task reachable from `A` through the `dependents` edges reads `FAILED` as
soon as the call returns. -/
theorem C5_failure_propagation_amended (fuel : Nat) (s s' : SchedState)
    (A B : String) (f : LocalStatus)
    (hFC : FCList s)
    (hf : f.inFailedStates = true)
    (hchange : statusOf s A ≠ f)
    (hnotf : statusOf s A ≠ .FAILED)
    (hrun : set_status fuel s A f = .ok s')
    (hreach : Reaches (depOf s) A B) :
    get_status s' B = .FAILED := by
  unfold set_status at hrun
  cases fuel with
  | zero => simp [runSet] at hrun
  | succ n =>
    rcases setStatusStep_failChar s A f hf hchange with
      ⟨k, s0, hstep⟩ | ⟨t, hstep, ht1, ht2, ht3⟩
    · simp [runSet, hstep] at hrun
    · simp only [runSet, hstep, List.append_nil] at hrun
      have hFCu := FCList_spec hFC
      have hdept : ∀ x, depOf t x = depOf s x := by
        intro x; unfold depOf; rw [ht3]
      have hw : ∀ p ∈ (depOf s A).map (fun d => (d, LocalStatus.FAILED)),
          p.2 = LocalStatus.FAILED := by
        intro p hp
        obtain ⟨d, _, hd⟩ := List.mem_map.mp hp
        rw [← hd]
      have hinv : ∀ d, statusOf t d = LocalStatus.FAILED → ∀ e ∈ depOf t d,
          statusOf t e = LocalStatus.FAILED ∨
            (e, LocalStatus.FAILED) ∈ (depOf s A).map (fun d => (d, LocalStatus.FAILED)) := by
        intro d hdf e he
        rw [hdept d] at he
        by_cases hdA : d = A
        · subst hdA
          exact Or.inr (List.mem_map_of_mem _ he)
        · have hds : statusOf s d = LocalStatus.FAILED := by
            rw [ht2 d hdA] at hdf; exact hdf
          have hse := hFCu d hds e he
          by_cases heA : e = A
          · exact absurd (heA ▸ hse) hnotf
          · exact Or.inl (by rw [ht2 e heA]; exact hse)
      obtain ⟨mono, deps, wall, fc⟩ := runSet_failed_props n t _ s' hw hinv hrun
      have hdir : ∀ e ∈ depOf s A, statusOf s' e = LocalStatus.FAILED :=
        fun e he => wall (e, .FAILED) (List.mem_map_of_mem _ he)
      unfold get_status
      induction hreach with
      | base h => exact hdir _ h
      | step hr h ihr =>
        exact fc _ ihr _ (by rw [deps, hdept]; exact h)

/-- C5 amended, witness: on the undisturbed chain `A → d → e`, cancelling
`A` leaves `e` FAILED when the call returns. -/
theorem C5_failure_propagation_amended_witness :
    FCList stateC5w ∧ statusOf stateC5w "A" ≠ .CANCELLED ∧
    statusOf stateC5w "A" ≠ .FAILED ∧
    get_status stateC5wPost "e" = .FAILED :=
  ⟨by decide, by decide, by decide,
    C5_failure_propagation_amended 10 stateC5w stateC5wPost "A" "e" .CANCELLED
      (by decide) rfl (by decide) (by decide) rfl
      (Reaches.step (Reaches.base (show "d" ∈ depOf stateC5w "A" by decide))
        (show "e" ∈ depOf stateC5w "d" by decide))⟩

/-- C7 amended: submitting a previously unseen task raises
`BackendError` naming an unregistered dependency `d`, provided every
dependency scanned before `d` is registered and not in `FAILED_STATES`
(if a failed dependency comes first, the task is instead marked FAILED
without any error). -/
theorem C7_unknown_dependency_amended (fuel : Nat) (s : SchedState) (task : Task)
    (d : String) (pre post : List String)
    (hfresh : statusOf s task.id = .UNKNOWN)
    (hds : task.dependencies = pre ++ d :: post)
    (hpre : ∀ y ∈ pre, ∃ v, lookupA s.statusMap y = some v ∧ v.inFailedStates = false)
    (hd : lookupA s.statusMap d = none) :
    (enqueue_task (fuel + 1) s task).errOf =
      some (.backendError ("Unknown dependency " ++ d)) := by
  unfold enqueue_task
  have hq : lookupA (updA s.queue task.id task) task.id = some task :=
    lookupA_updA_self _ _ _
  obtain ⟨s2, hsc⟩ := scanDeps_unknown_of task.id d post pre
    { s with queue := updA s.queue task.id task } hpre hd
  have hsc2 : scanDeps task.id { s with queue := updA s.queue task.id task }
      task.dependencies = .unknownDep d s2 := by
    rw [hds]; exact hsc
  have hos : statusOf { s with queue := updA s.queue task.id task } task.id
      = .UNKNOWN := hfresh
  have hstep : setStatusStep { s with queue := updA s.queue task.id task }
      task.id .SUBMITTED =
      .halt (.backendError ("Unknown dependency " ++ d)) s2 := by
    unfold setStatusStep
    rw [if_neg (by rw [hos]; exact fun h => LocalStatus.noConfusion h)]
    rw [hos]
    simp only [hq, hsc2]
  simp only [runSet, hstep]
  rfl

/-- C7 amended, witness: on `stateC7pre` (where `a` is CANCELLED and `x`
unseen), submitting a fresh task whose only dependency is `x` raises the
unknown-dependency `BackendError`. -/
theorem C7_unknown_dependency_amended_witness :
    statusOf stateC7pre "u" = .UNKNOWN ∧
    lookupA stateC7pre.statusMap "x" = none ∧
    (enqueue_task 10 stateC7pre {id := "u", dependencies := ["x"]}).errOf =
      some (.backendError ("Unknown dependency " ++ "x")) :=
  ⟨by decide, by decide,
    C7_unknown_dependency_amended 9 stateC7pre {id := "u", dependencies := ["x"]}
      "x" [] [] (by decide) rfl
      (fun y hy => absurd hy (List.not_mem_nil y)) (by decide)⟩

/-- C8 amended: cancellation is idempotent for any task `t` that does not
lie on a cycle of the `dependents` relation, witnessed by a
dependents-closed set `L` that contains the dependents of `t` but not `t`
itself: a successful `cancel_task(t)` leaves `t` at CANCELLED, so the
second cancel is an early-return no-op. (On forged dependents-cycles the
law fails, see the counterexample.) -/
theorem C8_cancel_idempotent_amended (fuel : Nat) (s s' : SchedState) (t : String)
    (L : List String)
    (hclosed : ∀ a ∈ L, ∀ e ∈ depOf s a, e ∈ L)
    (hsub : ∀ e ∈ depOf s t, e ∈ L)
    (htL : t ∉ L)
    (hrun : cancel_task fuel s t = .ok s') :
    cancel_task fuel s' t = .ok s' := by
  unfold cancel_task at hrun ⊢
  cases fuel with
  | zero => simp [runSet] at hrun
  | succ n =>
    by_cases hos : statusOf s t = .CANCELLED
    · have hstep := setStatusStep_ret s t _ hos
      simp only [runSet, hstep] at hrun
      simp only [runSet, SResult.ok.injEq] at hrun
      subst hrun
      simp only [runSet, hstep]
    · rcases setStatusStep_failChar s t .CANCELLED rfl hos with
        ⟨k, s0, hstep⟩ | ⟨u, hstep, hu1, hu2, hu3⟩
      · simp [runSet, hstep] at hrun
      · simp only [runSet, hstep, List.append_nil] at hrun
        have hdepu : ∀ y, depOf u y = depOf s y := by
          intro y; unfold depOf; rw [hu3]
        have hst : statusOf s' t = .CANCELLED := by
          have huntouched := runSet_failed_untouched L t n u
            ((depOf s t).map (fun d => (d, LocalStatus.FAILED))) s'
            (by
              intro p hp
              obtain ⟨d, _, hd⟩ := List.mem_map.mp hp
              rw [← hd])
            (by
              intro a ha e he
              rw [hdepu a] at he
              exact hclosed a ha e he)
            (by
              intro p hp
              obtain ⟨d, hd1, hd2⟩ := List.mem_map.mp hp
              have : p.1 = d := by rw [← hd2]
              rw [this]
              exact hsub d hd1)
            htL hrun
          rw [huntouched, hu1]
        have hstep2 := setStatusStep_ret s' t _ hst
        simp only [runSet, hstep2]

/-- C8 amended, witness: on the state with `a ← b` registered (no cycle),
cancelling `a` twice gives exactly the state of cancelling it once. -/
theorem C8_cancel_idempotent_amended_witness :
    cancel_task 10 stateC8w "a" = .ok stateC8w1 ∧
    cancel_task 10 stateC8w1 "a" = .ok stateC8w1 :=
  ⟨rfl,
    C8_cancel_idempotent_amended 10 stateC8w stateC8w1 "a" ["b"]
      (by decide) (by decide) (by decide) rfl⟩

/-- C10: when `enqueue_task` raises `BackendError` for a previously
unseen task id, the scheduler state has already been mutated: the task
sits in the queue while the status map still has no entry for it — the
failed submission is not rolled back. -/
theorem C10_enqueue_not_atomic (fuel : Nat) (s : SchedState) (task : Task)
    (m : String) (s' : SchedState)
    (hfresh : lookupA s.statusMap task.id = none)
    (hrun : enqueue_task fuel s task = .err (.backendError m) s') :
    lookupA s'.queue task.id = some task ∧ lookupA s'.statusMap task.id = none := by
  unfold enqueue_task at hrun
  cases fuel with
  | zero => simp [runSet] at hrun
  | succ n =>
    have hos : statusOf { s with queue := updA s.queue task.id task } task.id
        = .UNKNOWN := by
      unfold statusOf
      show (lookupA s.statusMap task.id).getD .UNKNOWN = .UNKNOWN
      rw [hfresh]; rfl
    have hq : lookupA (updA s.queue task.id task) task.id = some task :=
      lookupA_updA_self _ _ _
    cases hsc : scanDeps task.id { s with queue := updA s.queue task.id task }
        task.dependencies with
    | proceed s2 =>
      have hstep : setStatusStep { s with queue := updA s.queue task.id task }
          task.id .SUBMITTED =
          .next (setStat s2 task.id .SUBMITTED)
            (propWork (setStat s2 task.id .SUBMITTED) task.id .SUBMITTED) := by
        unfold setStatusStep
        rw [if_neg (by rw [hos]; exact fun h => LocalStatus.noConfusion h)]
        rw [hos]
        simp only [hq, hsc]
      simp only [runSet, hstep] at hrun
      simp [runSet, propWork, LocalStatus.inFailedStates] at hrun
    | failNow s2 =>
      have hstep : setStatusStep { s with queue := updA s.queue task.id task }
          task.id .SUBMITTED = .next s2 [(task.id, .FAILED)] := by
        unfold setStatusStep
        rw [if_neg (by rw [hos]; exact fun h => LocalStatus.noConfusion h)]
        rw [hos]
        simp only [hq, hsc]
      simp only [runSet, hstep] at hrun
      exact absurd hrun (runSet_failed_no_backend n s2 _ m s' (by simp))
    | unknownDep d s2 =>
      have hstep : setStatusStep { s with queue := updA s.queue task.id task }
          task.id .SUBMITTED =
          .halt (.backendError ("Unknown dependency " ++ d)) s2 := by
        unfold setStatusStep
        rw [if_neg (by rw [hos]; exact fun h => LocalStatus.noConfusion h)]
        rw [hos]
        simp only [hq, hsc]
      simp only [runSet, hstep, SResult.err.injEq] at hrun
      obtain ⟨-, hs2⟩ := hrun
      subst hs2
      have hpres := scanDeps_preserves task.id task.dependencies
        { s with queue := updA s.queue task.id task }
      rw [hsc] at hpres
      simp only [DepScan.state] at hpres
      refine ⟨?_, ?_⟩
      · rw [hpres.2]; exact hq
      · rw [hpres.1]; exact hfresh

/-- C10, witness: a fresh 1-core server rejects the task `z` with unknown
dependency `nope`, and the post-error state has `z` in the queue with no
status entry. -/
theorem C10_enqueue_not_atomic_witness :
    lookupA (initState 1).statusMap "z" = none ∧
    lookupA resC10w.state.queue "z" = some {id := "z", dependencies := ["nope"]} ∧
    lookupA resC10w.state.statusMap "z" = none :=
  ⟨rfl,
    (C10_enqueue_not_atomic 10 (initState 1) {id := "z", dependencies := ["nope"]}
      ("Unknown dependency " ++ "nope") resC10w.state rfl rfl).1,
    (C10_enqueue_not_atomic 10 (initState 1) {id := "z", dependencies := ["nope"]}
      ("Unknown dependency " ++ "nope") resC10w.state rfl rfl).2⟩

end GwfLocal
